import Mathlib

/-!
Verification of the odoo-backup-tool CLI (`src/odoo_backup/cli.py`) against
its natural-language specification.  The Python source is shallowly embedded:
filesystem and database effects become oracle parameters, pure logic becomes
Lean functions mirroring the source line by line.
-/

namespace OdooBackup

/-! ### Filesystem oracle for the filestore locator

`os.path.exists` / `os.path.isdir` return booleans and raise nothing; the
recursive listing `list(Path(p).rglob('*'))` may raise
`PermissionError`/`OSError`, so it is modelled as an `Except`-valued count of
the entries it lists. -/

structure FSOracle where
  pexists : String → Bool
  isdir : String → Bool
  rglobCount : String → Except Unit Nat

/-- `os.path.join a b` for a relative second component. -/
def pjoin (a b : String) : String := a ++ "/" ++ b

/-- Rank assigned by the `ORDER BY CASE key ... END` clause of the
`ir_config_parameter` query in `get_filestore_from_database`
(`cli.py:207-216`). -/
def keyRank (k : String) : Nat :=
  if k = "database.filestore_path" then 1
  else if k = "data_dir" then 2
  else if k = "ir_attachment.location" then 3
  else 4

/-- The three keys of the `WHERE key IN (...)` clause (`cli.py:209`). -/
def configKeys : List String :=
  ["data_dir", "database.filestore_path", "ir_attachment.location"]

def insertByRank (x : String × String) :
    List (String × String) → List (String × String)
  | [] => [x]
  | y :: ys =>
    if keyRank x.1 ≤ keyRank y.1 then x :: y :: ys else y :: insertByRank x ys

def sortByRank : List (String × String) → List (String × String)
  | [] => []
  | x :: xs => insertByRank x (sortByRank xs)

/-- The `ir_config_parameter` query (`cli.py:207-217`): keep the rows whose
key is one of the three configuration keys and order them by `keyRank`. -/
def configQuery (rows : List (String × String)) : List (String × String) :=
  sortByRank (rows.filter (fun r => decide (r.1 ∈ configKeys)))

/-- The row loop of "Method 1" in `get_filestore_from_database`
(`cli.py:219-240`).  An empty value is skipped (`if not value: continue`); a
`database.filestore_path` value is returned directly when it exists on disk;
a `data_dir` value yields the candidate `<data_dir>/filestore/<database>`,
returned when it exists; an `ir_attachment.location` row only prints and the
loop continues. -/
def method1 (fsys : FSOracle) (database : String) :
    List (String × String) → Option String
  | [] => none
  | (k, v) :: rest =>
    if v = "" then method1 fsys database rest
    else if k = "database.filestore_path" then
      if fsys.pexists v then some v else method1 fsys database rest
    else if k = "data_dir" then
      if fsys.pexists (pjoin (pjoin v "filestore") database) then
        some (pjoin (pjoin v "filestore") database)
      else method1 fsys database rest
    else method1 fsys database rest

/-- The fixed base-directory list of "Method 2" (`cli.py:258-265`);
`os.path.expanduser "~"` is the `home` parameter. -/
def possible_base_dirs (home : String) : List String :=
  ["/var/lib/odoo/.local/share/Odoo",
   "/home/odoo/.local/share/Odoo",
   "/opt/odoo/data",
   "/var/lib/odoo",
   "/home/odoo/data",
   home ++ "/.local/share/Odoo"]

/-- The reference path tested by "Method 2" (`cli.py:268`):
`<base>/filestore/<database>/<store_fname[:2]>/<store_fname>`. -/
def refPath (base database f : String) : String :=
  pjoin (pjoin (pjoin (pjoin base "filestore") database) (f.take 2)) f

/-- The base-directory loop of "Method 2" (`cli.py:267-274`): test the
reference path under each base and return `<base>/filestore/<database>` on
the first hit. -/
def method2Loop (fsys : FSOracle) (database f : String) :
    List String → Option String
  | [] => none
  | base :: rest =>
    if fsys.pexists (refPath base database f)
    then some (pjoin (pjoin base "filestore") database)
    else method2Loop fsys database f rest

/-- "Method 2" of `get_filestore_from_database` (`cli.py:244-274`):
`store_fname` is the single stored-file reference returned by the
`ir_attachment` query (`none` when no row with a non-empty reference
exists). -/
def method2 (fsys : FSOracle) (database home : String)
    (store_fname : Option String) : Option String :=
  match store_fname with
  | none => none
  | some f => method2Loop fsys database f (possible_base_dirs home)

/-- `get_filestore_from_database` (`cli.py:194-283`).  The whole body is
wrapped in one `try/except`; a database connection or query error
(`dbError`) makes the function print and return `None`.  `rows` is the
content of `ir_config_parameter`, `store_fname` the attachment
back-reference. -/
def get_filestore_from_database (fsys : FSOracle) (dbError : Bool)
    (rows : List (String × String)) (store_fname : Option String)
    (database home : String) : Option String :=
  if dbError then none
  else
    match method1 fsys database (configQuery rows) with
    | some p => some p
    | none => method2 fsys database home store_fname

/-! ### The conventional path sweep (`detect_filestore_path`, posix branch) -/

def odoo_users : List String := ["odoo", "odoo-server", "openerp", "erp"]

/-- The five per-user paths of the `odoo_users` loop (`cli.py:341-350`). -/
def userPaths (database u : String) : List String :=
  ["/var/lib/" ++ u ++ "/.local/share/Odoo/filestore/" ++ database,
   "/home/" ++ u ++ "/.local/share/Odoo/filestore/" ++ database,
   "/var/lib/" ++ u ++ "/filestore/" ++ database,
   "/home/" ++ u ++ "/data/filestore/" ++ database,
   "/home/" ++ u ++ "/odoo/filestore/" ++ database]

/-- The system-wide locations (`cli.py:353-363`). -/
def systemPaths (database : String) : List String :=
  ["/opt/odoo/data/filestore/" ++ database,
   "/usr/local/var/odoo/filestore/" ++ database,
   "/opt/odoo/filestore/" ++ database,
   "/var/odoo/filestore/" ++ database,
   "/usr/local/odoo/.local/share/Odoo/filestore/" ++ database,
   "/opt/odoo/.local/share/Odoo/filestore/" ++ database,
   "/srv/odoo/filestore/" ++ database,
   "/data/odoo/filestore/" ++ database]

/-- The relative development paths (`cli.py:366-373`). -/
def relativePaths (database : String) : List String :=
  ["./filestore/" ++ database,
   "../filestore/" ++ database,
   "./data/filestore/" ++ database,
   "../data/filestore/" ++ database,
   "./data-dir/filestore/" ++ database,
   "../data-dir/filestore/" ++ database]

/-- `possible_paths` as assembled by `detect_filestore_path`
(`cli.py:294-373`, posix branch): the configuration-file-scan candidate
first (when `get_odoo_data_dir` found a data directory), then the
`XDG_DATA_HOME` candidate, the home-directory default, the system-user
paths, the system-wide paths, and the relative development paths. -/
def possiblePaths (odoo_data_dir xdg_data_home : Option String)
    (home database : String) : List String :=
  (match odoo_data_dir with
   | some d => [pjoin (pjoin d "filestore") database]
   | none => []) ++
  (match xdg_data_home with
   | some x => [pjoin (pjoin (pjoin x "Odoo") "filestore") database]
   | none => []) ++
  [pjoin (pjoin (pjoin (pjoin (pjoin home ".local") "share") "Odoo")
      "filestore") database] ++
  (odoo_users.map (userPaths database)).flatten ++
  systemPaths database ++
  relativePaths database

/-- The sweep's per-candidate acceptance test (`cli.py:378-386`): the path
exists, is a directory, and its recursive listing succeeds with more than
zero entries. -/
def acceptedB (fsys : FSOracle) (p : String) : Bool :=
  fsys.pexists p && fsys.isdir p &&
    (match fsys.rglobCount p with
     | .ok n => decide (0 < n)
     | .error _ => false)

/-- The candidate loop of `detect_filestore_path` (`cli.py:377-391`):
`os.path.exists` and `os.path.isdir` first, then the `try` around `rglob`;
a `PermissionError`/`OSError` hits `continue`. -/
def sweep (fsys : FSOracle) : List String → Option String
  | [] => none
  | p :: rest =>
    if fsys.pexists p && fsys.isdir p then
      match fsys.rglobCount p with
      | .ok n => if 0 < n then some p else sweep fsys rest
      | .error _ => sweep fsys rest
    else sweep fsys rest

/-- `detect_filestore_path` (`cli.py:286-397`, posix branch). -/
def detect_filestore_path (fsys : FSOracle)
    (odoo_data_dir xdg_data_home : Option String)
    (home database : String) : Option String :=
  sweep fsys (possiblePaths odoo_data_dir xdg_data_home home database)

/-- The locator part of `main` (`cli.py:559-581`): query the database first
(`get_filestore_from_database`), fall back to filesystem detection
(`detect_filestore_path`) when it returns `None`. -/
def locate_filestore (fsys : FSOracle) (dbError : Bool)
    (rows : List (String × String)) (store_fname : Option String)
    (odoo_data_dir xdg_data_home : Option String)
    (database home : String) : Option String :=
  match get_filestore_from_database fsys dbError rows store_fname database home with
  | some p => some p
  | none => detect_filestore_path fsys odoo_data_dir xdg_data_home home database

/-! ### Archiver and assembler world

For `create_filestore_backup` / `create_full_backup` the filesystem is a
list of nodes, each a path (component list) that is either a regular file
or a directory; `Path(p).rglob('*')` enumerates the proper descendants of
`p`. Zip archives are modelled by their entry lists; the payload of an
outer entry is either the opaque database dump or a nested inner archive
(whose bytes encode exactly its own entry list). -/

structure FSEntry where
  path : List String
  isFile : Bool
deriving DecidableEq, Repr

/-- Generic boolean prefix test on lists. -/
def isPre [DecidableEq α] : List α → List α → Bool
  | [], _ => true
  | _ :: _, [] => false
  | a :: as, b :: bs => a = b && isPre as bs

/-- `os.path.exists` in the node-list world. -/
def fsExists (fs : List FSEntry) (p : List String) : Bool :=
  fs.any (fun e => e.path = p)

/-- `list(Path(p).rglob('*'))`: every node strictly below `p`. -/
def rglobAll (fs : List FSEntry) (p : List String) : List FSEntry :=
  fs.filter (fun e => isPre p e.path && decide (e.path ≠ p))

/-- `create_filestore_backup` (`cli.py:74-89`): `None` when the source
directory does not exist; otherwise the inner archive's entry-name list —
each regular file below `filestore_path`, named by
`file_path.relative_to(filestore_path.parent)`, i.e. its path with the
components of the parent directory dropped. -/
def create_filestore_backup (fs : List FSEntry) (filestore_path : List String) :
    Option (List (List String)) :=
  if fsExists fs filestore_path then
    some (((rglobAll fs filestore_path).filter (fun e => e.isFile)).map
      (fun e => e.path.drop (filestore_path.length - 1)))
  else none

/-- Payload of an outer-archive entry: the database dump, or an inner zip
archive carrying its entry-name list. -/
inductive Payload where
  | dump : Payload
  | innerZip (names : List (List String)) : Payload
deriving DecidableEq, Repr

structure BackupResult where
  madeDir : String
  path : String
  entries : List (String × Payload)
deriving DecidableEq, Repr

/-- `create_full_backup` (`cli.py:92-108`): make the output directory,
write `<database>.sql` always and `filestore.zip` when a filestore archive
was produced (`filestore_backup` is `none` both for Python `None` and for a
path that no longer exists), at `<output_path>/<database>_<timestamp>.zip`.
The timestamp string comes from `datetime.now().strftime`. -/
def create_full_backup (db_backup : Payload) (filestore_backup : Option Payload)
    (output_path database timestamp : String) : BackupResult :=
  { madeDir := output_path
    path := pjoin output_path (database ++ "_" ++ timestamp ++ ".zip")
    entries := [(database ++ ".sql", db_backup)] ++
      (match filestore_backup with
       | some pl => [("filestore.zip", pl)]
       | none => []) }

/-- `datetime.now().strftime("%Y%m%d_%H%M%S")`, with zero-padded fields. -/
structure DateTime where
  year : Nat
  month : Nat
  day : Nat
  hour : Nat
  minute : Nat
  second : Nat

def pad2 (n : Nat) : String := if n < 10 then "0" ++ toString n else toString n

def pad4 (n : Nat) : String :=
  if n < 10 then "000" ++ toString n
  else if n < 100 then "00" ++ toString n
  else if n < 1000 then "0" ++ toString n
  else toString n

def strftimeTs (t : DateTime) : String :=
  pad4 t.year ++ pad2 t.month ++ pad2 t.day ++ "_" ++
    pad2 t.hour ++ pad2 t.minute ++ pad2 t.second

/-- The backup steps of `main` (`cli.py:608-616`): run the filestore
archiver only when a filestore path is set and exists, then assemble the
outer archive. -/
def backupPipeline (fs : List FSEntry) (filestore_path : Option (List String))
    (output_path database timestamp : String) : BackupResult :=
  let fb : Option (List (List String)) :=
    match filestore_path with
    | some p => if fsExists fs p then create_filestore_backup fs p else none
    | none => none
  create_full_backup Payload.dump (fb.map Payload.innerZip)
    output_path database timestamp

/-- Look an entry up in an archive by name (extraction of one member). -/
def lookupEntry (entries : List (String × Payload)) (name : String) :
    Option Payload :=
  (entries.find? (fun e => e.1 = name)).map (fun e => e.2)

/-- Extract the outer archive's `filestore.zip`, then extract that inner
archive: the resulting relative file-name list. -/
def extractInnerNames (r : BackupResult) : Option (List (List String)) :=
  match lookupEntry r.entries "filestore.zip" with
  | some (Payload.innerZip names) => some names
  | _ => none

/-- The filestore directory's set of regular files, named relative to the
directory's parent. -/
def relativeFiles (fs : List FSEntry) (p : List String) : List (List String) :=
  (fs.filter (fun e => e.isFile && isPre p e.path && decide (e.path ≠ p))).map
    (fun e => e.path.drop (p.length - 1))

/-! ### Crontab model (`add_to_crontab`, `cli.py:400-459`)

Crontab text is a list of characters.  `str.split('\n')`, `str.strip()`,
`'\n'.join(...)` and the Python substring test `in` are embedded
directly. -/

def NL : Char := '\n'

/-- Python's `str.split('\n')`. -/
def splitLines : List Char → List (List Char)
  | [] => [[]]
  | c :: rest =>
    if c = NL then [] :: splitLines rest
    else
      match splitLines rest with
      | [] => [[c]]
      | h :: t => (c :: h) :: t

/-- Python's `'\n'.join`. -/
def joinNL : List (List Char) → List Char
  | [] => []
  | [l] => l
  | l :: rest => l ++ NL :: joinNL rest

/-- The whitespace characters removed by Python's `str.strip()`. -/
def isSpaceC (c : Char) : Bool :=
  c = ' ' || c = '\t' || c = '\n' || c = '\r' || c = '\x0b' || c = '\x0c'

/-- Python's `str.strip()`. -/
def pyStrip (l : List Char) : List Char :=
  ((l.dropWhile isSpaceC).reverse.dropWhile isSpaceC).reverse

/-- The Python substring test `needle in hay` on character lists. -/
def containsSub (needle : List Char) : List Char → Bool
  | [] => needle.isEmpty
  | c :: rest => isPre needle (c :: rest) || containsSub needle rest

/-- The recognition marker of `add_to_crontab` (`'uvx obx' in line`). -/
def marker : List Char := "uvx obx".toList

/-- A crontab line recognizable as belonging to this tool. -/
def isObxLine (l : List Char) : Bool := containsSub marker l

/-- The `obx_lines` filter of `add_to_crontab` (`cli.py:408-409`). -/
def obxLines (crontab : List Char) : List (List Char) :=
  (splitLines crontab).filter isObxLine

/-- The choice offered by the `Prompt.ask` in `add_to_crontab`. -/
inductive CronAction where
  | replace | add | cancel
deriving DecidableEq, Repr

/-- `add_to_crontab` (`cli.py:400-459`).  `current` is the `crontab -l`
output (empty when that fails), `action` the interactive choice (consulted
only when recognizable lines exist), `wOk` whether the `crontab -` write
exits 0.  The result is the crontab text written back (`none` = no write)
paired with the returned boolean. -/
def add_to_crontab (wOk : Bool) (current cron_line : List Char)
    (action : CronAction) : Option (List Char) × Bool :=
  if (obxLines current).isEmpty then
    if containsSub (pyStrip cron_line) current then (none, true)
    else (some (current ++ cron_line ++ [NL]), wOk)
  else
    match action with
    | .cancel => (none, false)
    | .replace =>
      (some (joinNL ((splitLines current).filter (fun l => !isObxLine l) ++
        [pyStrip cron_line]) ++ [NL]), wOk)
    | .add => (some (current ++ cron_line ++ [NL]), wOk)

/-- The cron line composed by `main` and `setup_cron_job`
(`cli.py:647-648`, `cli.py:471-472`): `"<schedule> uvx obx <args>"`. -/
def composedCronLine (schedule args : List Char) : List Char :=
  schedule ++ ' ' :: (marker ++ ' ' :: args)

/-! ### Exit-code model of `main` (`cli.py:510-649`)

External outcomes are oracle fields; the function returns the process exit
code of the corresponding run. -/

/-- Outcome of the `pg_dump` subprocess in `create_db_backup`
(`cli.py:63-71`): the executable may be missing (`FileNotFoundError`) or
run with some return code. -/
inductive DumpOutcome where
  | missing
  | ran (returncode : Nat)
deriving DecidableEq, Repr

/-- `create_db_backup` (`cli.py:47-71`): `false` on `FileNotFoundError` or
a non-zero `pg_dump` exit, `true` otherwise. -/
def create_db_backup (d : DumpOutcome) : Bool :=
  match d with
  | .missing => false
  | .ran rc => decide (rc = 0)

/-- External outcomes consumed by one run of `main`: the result of
`get_databases` (`.error` when the PostgreSQL connection fails, used only
when no `--database` is given), the interactive backup confirmation, and
the `pg_dump` outcome. -/
structure RunEnv where
  connResult : Except Unit (List String)
  userConfirms : Bool
  dump : DumpOutcome

/-- The steps of `main` after a database name is settled
(`cli.py:594-624`): the confirmation prompt (interactive only, `exit 0` on
refusal), then the dump (`exit 1` on failure), then archive assembly and
normal termination. -/
def mainAfterDb (nonInteractive : Bool) (env : RunEnv) : Nat :=
  if !nonInteractive && !env.userConfirms then 0
  else if create_db_backup env.dump then 0
  else 1

/-- The exit code of `main` (`cli.py:510-649`).  With no `--database`,
`get_databases` runs first: connection failure exits 1
(`cli.py:42-44`), an empty database list exits 1 (`cli.py:538-540`), and
non-interactive mode without a database exits 1 (`cli.py:551-553`);
otherwise the run continues with a selected database.  Filestore
detection, archive creation and cron setup never change the exit code. -/
def mainExit (nonInteractive : Bool) (databaseArg : Option String)
    (env : RunEnv) : Nat :=
  match databaseArg with
  | some _ => mainAfterDb nonInteractive env
  | none =>
    match env.connResult with
    | .error _ => 1
    | .ok dbs =>
      if dbs.isEmpty then 1
      else if nonInteractive then 1
      else mainAfterDb nonInteractive env

/-! ### Helper lemmas: the sweep is a first-match search -/

theorem sweep_cons (fsys : FSOracle) (p : String) (rest : List String) :
    sweep fsys (p :: rest) =
      if acceptedB fsys p then some p else sweep fsys rest := by
  by_cases hpe : (fsys.pexists p && fsys.isdir p) = true
  · cases hrg : fsys.rglobCount p with
    | ok n =>
      by_cases hn : 0 < n
      · simp [sweep, acceptedB, hpe, hrg, hn]
      · simp [sweep, acceptedB, hpe, hrg, hn]
    | error e => simp [sweep, acceptedB, hpe, hrg]
  · have hpe' : (fsys.pexists p && fsys.isdir p) = false := by
      cases h : (fsys.pexists p && fsys.isdir p)
      · rfl
      · exact absurd h hpe
    simp [sweep, acceptedB, hpe']

theorem sweep_eq_some (fsys : FSOracle) (ps : List String) (p : String) :
    sweep fsys ps = some p ↔
      ∃ pre post, ps = pre ++ p :: post ∧
        (∀ q ∈ pre, acceptedB fsys q = false) ∧ acceptedB fsys p = true := by
  induction ps with
  | nil =>
    simp only [sweep]
    constructor
    · intro h; cases h
    · rintro ⟨pre, post, h, -, -⟩; cases pre <;> simp at h
  | cons q rest ih =>
    rw [sweep_cons]
    by_cases hq : acceptedB fsys q = true
    · simp only [hq, if_pos]
      constructor
      · rintro ⟨rfl⟩; exact ⟨[], rest, rfl, by simp, hq⟩
      · rintro ⟨pre, post, heq, hpre, hp⟩
        cases pre with
        | nil => simp at heq; simp [heq.1]
        | cons a pre' =>
          simp only [List.cons_append, List.cons.injEq] at heq
          have := hpre a (by simp)
          rw [heq.1] at hq
          simp [hq] at this
    · have hq' : acceptedB fsys q = false := by
        cases h : acceptedB fsys q
        · rfl
        · exact absurd h hq
      simp only [hq', if_neg, Bool.false_eq_true, not_false_iff, ih]
      constructor
      · rintro ⟨pre, post, rfl, hpre, hp⟩
        exact ⟨q :: pre, post, rfl, by
          intro x hx
          rcases List.mem_cons.mp hx with rfl | hx
          · exact hq'
          · exact hpre x hx, hp⟩
      · rintro ⟨pre, post, heq, hpre, hp⟩
        cases pre with
        | nil =>
          simp only [List.nil_append, List.cons.injEq] at heq
          rw [← heq.1] at hp
          rw [hp] at hq'
          exact Bool.noConfusion hq'
        | cons a pre' =>
          simp only [List.cons_append, List.cons.injEq] at heq
          exact ⟨pre', post, heq.2, fun x hx => hpre x (by simp [hx]), hp⟩

theorem sweep_eq_none (fsys : FSOracle) (ps : List String) :
    sweep fsys ps = none ↔ ∀ q ∈ ps, acceptedB fsys q = false := by
  induction ps with
  | nil => simp [sweep]
  | cons q rest ih =>
    rw [sweep_cons]
    by_cases hq : acceptedB fsys q = true
    · simp [hq]
    · have hq' : acceptedB fsys q = false := by
        cases h : acceptedB fsys q
        · rfl
        · exact absurd h hq
      simp [hq', ih]

/-- `method1` only ever returns a path that passed its `os.path.exists`
check. -/
theorem method1_some_pexists (fsys : FSOracle) (database : String)
    (l : List (String × String)) (p : String)
    (h : method1 fsys database l = some p) : fsys.pexists p = true := by
  induction l with
  | nil => simp [method1] at h
  | cons r rest ih =>
    obtain ⟨k, v⟩ := r
    rw [method1] at h
    by_cases hv : v = ""
    · rw [if_pos hv] at h; exact ih h
    · rw [if_neg hv] at h
      by_cases hk1 : k = "database.filestore_path"
      · rw [if_pos hk1] at h
        by_cases he : fsys.pexists v = true
        · rw [if_pos he] at h; cases h; exact he
        · rw [if_neg he] at h; exact ih h
      · rw [if_neg hk1] at h
        by_cases hk2 : k = "data_dir"
        · rw [if_pos hk2] at h
          by_cases he :
              fsys.pexists (pjoin (pjoin v "filestore") database) = true
          · rw [if_pos he] at h; cases h; exact he
          · rw [if_neg he] at h; exact ih h
        · rw [if_neg hk2] at h; exact ih h

/-- `method2Loop` returns `<base>/filestore/<database>` for the first base
whose reference path exists. -/
theorem method2Loop_some (fsys : FSOracle) (database f : String)
    (bases : List String) (q : String)
    (h : method2Loop fsys database f bases = some q) :
    ∃ base ∈ bases,
      fsys.pexists (refPath base database f) = true ∧
      q = pjoin (pjoin base "filestore") database := by
  induction bases with
  | nil => simp [method2Loop] at h
  | cons b rest ih =>
    rw [method2Loop] at h
    by_cases he : fsys.pexists (refPath b database f) = true
    · rw [if_pos he] at h; cases h; exact ⟨b, by simp, he, rfl⟩
    · rw [if_neg he] at h
      obtain ⟨base, hmem, hex, hq⟩ := ih h
      exact ⟨base, by simp [hmem], hex, hq⟩

/-! ### Claim C1 -/

/-- C1 (counterexample): the claim "every candidate path returned by the
filestore locator exists, is a directory, and contains at least one entry"
is false: the database-configuration lookup only checks `os.path.exists` on
a `database.filestore_path` value, so the locator returns a path that is
not a directory. -/
theorem C1_counterexample :
    locate_filestore
      ⟨fun p => decide (p = "/bad"), fun _ => false, fun _ => Except.error ()⟩
      false [("database.filestore_path", "/bad")] none none none "db" "/home/u"
      = some "/bad" ∧
    FSOracle.isdir
      ⟨fun p => decide (p = "/bad"), fun _ => false, fun _ => Except.error ()⟩
      "/bad" = false := by
  exact ⟨rfl, rfl⟩

/-- C1 (amended): candidates accepted by the configuration-file scan and the
conventional path sweep (both run through `detect_filestore_path`'s loop)
exist, are directories, and contain at least one entry recursively, and every
candidate the sweep rejects fails at least one of those conditions; candidates
returned by the database-configuration lookup only pass an `os.path.exists`
check on the path itself, and candidates returned by the attachment
back-reference only pass an existence check on the stored-file reference
beneath the returned directory. -/
theorem C1_amended_acceptance :
    (∀ (fsys : FSOracle) (odoo_data_dir xdg_data_home : Option String)
        (home database : String),
      detect_filestore_path fsys odoo_data_dir xdg_data_home home database =
        sweep fsys (possiblePaths odoo_data_dir xdg_data_home home database)) ∧
    (∀ (fsys : FSOracle) (ps : List String) (p : String),
      sweep fsys ps = some p →
        acceptedB fsys p = true ∧
        ∃ pre post, ps = pre ++ p :: post ∧
          ∀ q ∈ pre, acceptedB fsys q = false) ∧
    (∀ (fsys : FSOracle) (ps : List String),
      sweep fsys ps = none → ∀ q ∈ ps, acceptedB fsys q = false) ∧
    (∀ (fsys : FSOracle) (rows : List (String × String))
        (store_fname : Option String) (database home p : String),
      get_filestore_from_database fsys false rows store_fname database home
          = some p →
        fsys.pexists p = true ∨
        ∃ f base, store_fname = some f ∧ base ∈ possible_base_dirs home ∧
          fsys.pexists (refPath base database f) = true ∧
          p = pjoin (pjoin base "filestore") database) := by
  refine ⟨fun _ _ _ _ _ => rfl, ?_, ?_, ?_⟩
  · intro fsys ps p h
    obtain ⟨pre, post, heq, hpre, hp⟩ := (sweep_eq_some fsys ps p).mp h
    exact ⟨hp, pre, post, heq, hpre⟩
  · intro fsys ps h
    exact (sweep_eq_none fsys ps).mp h
  · intro fsys rows sf database home p h
    simp only [get_filestore_from_database, Bool.false_eq_true, if_false] at h
    cases hm1 : method1 fsys database (configQuery rows) with
    | some q =>
      rw [hm1] at h
      simp only [Option.some.injEq] at h
      subst h
      exact Or.inl (method1_some_pexists fsys database _ q hm1)
    | none =>
      rw [hm1] at h
      cases sf with
      | none => simp [method2] at h
      | some f =>
        right
        obtain ⟨base, hmem, hex, hq⟩ :=
          method2Loop_some fsys database f _ p (by simpa [method2] using h)
        exact ⟨f, base, rfl, hmem, hex, hq⟩

/-- Witness for `C1_amended_acceptance`: a concrete accepted sweep. -/
theorem C1_amended_witness :
    acceptedB ⟨fun _ => true, fun _ => true, fun _ => Except.ok 3⟩ "/a" = true ∧
    ∃ pre post, ["/a"] = pre ++ "/a" :: post ∧
      ∀ q ∈ pre,
        acceptedB ⟨fun _ => true, fun _ => true, fun _ => Except.ok 3⟩ q
          = false :=
  C1_amended_acceptance.2.1
    ⟨fun _ => true, fun _ => true, fun _ => Except.ok 3⟩ ["/a"] "/a" (by decide)

/-! ### Claim C2 -/

/-- C2: the locator probes the database-configuration lookup and attachment
back-reference (`get_filestore_from_database`) before the configuration-file
scan and conventional sweep (`detect_filestore_path`), returning the first
hit: `locate_filestore` returns `p` exactly when the database lookup does, or
the database lookup finds nothing and detection does; when both exhaust their
candidates it reports `none`; and inside detection the configuration-file
candidate is swept before every conventional path. -/
theorem C2_strategy_priority :
    ∀ (fsys : FSOracle) (dbError : Bool) (rows : List (String × String))
      (store_fname : Option String)
      (odoo_data_dir xdg_data_home : Option String) (database home : String),
      (∀ p, locate_filestore fsys dbError rows store_fname odoo_data_dir
          xdg_data_home database home = some p ↔
        (get_filestore_from_database fsys dbError rows store_fname database
            home = some p ∨
         (get_filestore_from_database fsys dbError rows store_fname database
            home = none ∧
          detect_filestore_path fsys odoo_data_dir xdg_data_home home database
            = some p))) ∧
      (get_filestore_from_database fsys dbError rows store_fname database home
          = none →
        detect_filestore_path fsys odoo_data_dir xdg_data_home home database
          = none →
        locate_filestore fsys dbError rows store_fname odoo_data_dir
          xdg_data_home database home = none) ∧
      (∀ d, odoo_data_dir = some d →
        detect_filestore_path fsys odoo_data_dir xdg_data_home home database =
          if acceptedB fsys (pjoin (pjoin d "filestore") database) then
            some (pjoin (pjoin d "filestore") database)
          else
            sweep fsys (possiblePaths none xdg_data_home home database)) := by
  intro fsys dbError rows store_fname odoo_data_dir xdg_data_home database home
  refine ⟨?_, ?_, ?_⟩
  · intro p
    unfold locate_filestore
    cases hg : get_filestore_from_database fsys dbError rows store_fname
        database home with
    | some q => simp [hg]
    | none => simp [hg]
  · intro h1 h2
    unfold locate_filestore
    rw [h1]
    exact h2
  · intro d hd
    subst hd
    show sweep fsys (pjoin (pjoin d "filestore") database ::
      possiblePaths none xdg_data_home home database) = _
    rw [sweep_cons]

/-- Witness for `C2_strategy_priority`: with every strategy exhausted the
locator reports not-found. -/
theorem C2_witness :
    locate_filestore ⟨fun _ => false, fun _ => false, fun _ => Except.error ()⟩
      false [] none none none "db" "/h" = none :=
  (C2_strategy_priority _ false [] none none none "db" "/h").2.1 rfl rfl

/-! ### Claim C8 -/

/-- C8: a `PermissionError`/`OSError` raised while listing one sweep
candidate is swallowed — that candidate alone fails its acceptance test and
the sweep continues with the remaining candidates, never propagating the
error. -/
theorem C8_error_swallowed :
    ∀ (fsys : FSOracle) (p : String) (rest : List String),
      fsys.rglobCount p = Except.error () →
      acceptedB fsys p = false ∧
      sweep fsys (p :: rest) = sweep fsys rest := by
  intro fsys p rest herr
  have hacc : acceptedB fsys p = false := by
    simp [acceptedB, herr]
  refine ⟨hacc, ?_⟩
  rw [sweep_cons, hacc]
  simp

/-- Witness for `C8_error_swallowed`. -/
theorem C8_witness :
    acceptedB ⟨fun _ => true, fun _ => true, fun _ => Except.error ()⟩ "/p"
      = false ∧
    sweep ⟨fun _ => true, fun _ => true, fun _ => Except.error ()⟩
      ["/p", "/q"] =
    sweep ⟨fun _ => true, fun _ => true, fun _ => Except.error ()⟩ ["/q"] :=
  C8_error_swallowed ⟨fun _ => true, fun _ => true, fun _ => Except.error ()⟩
    "/p" ["/q"] rfl

/-! ### Claim C3 -/

theorem mem_insertByRank (x z : String × String) (l : List (String × String)) :
    z ∈ insertByRank x l ↔ z = x ∨ z ∈ l := by
  induction l with
  | nil => simp [insertByRank]
  | cons y ys ih =>
    rw [insertByRank]
    by_cases h : keyRank x.1 ≤ keyRank y.1
    · rw [if_pos h]
      simp
    · rw [if_neg h]
      simp [ih]
      tauto

theorem pairwise_insertByRank (x : String × String)
    (l : List (String × String))
    (h : l.Pairwise (fun a b => keyRank a.1 ≤ keyRank b.1)) :
    (insertByRank x l).Pairwise (fun a b => keyRank a.1 ≤ keyRank b.1) := by
  induction l with
  | nil => simp [insertByRank]
  | cons y ys ih =>
    rw [insertByRank]
    rcases List.pairwise_cons.mp h with ⟨hy, hys⟩
    by_cases hle : keyRank x.1 ≤ keyRank y.1
    · rw [if_pos hle]
      refine List.pairwise_cons.mpr ⟨?_, h⟩
      intro z hz
      rcases List.mem_cons.mp hz with rfl | hz'
      · exact hle
      · exact le_trans hle (hy z hz')
    · rw [if_neg hle]
      refine List.pairwise_cons.mpr ⟨?_, ih hys⟩
      intro z hz
      rcases (mem_insertByRank x z ys).mp hz with rfl | hz'
      · exact le_of_not_le hle
      · exact hy z hz'

theorem pairwise_sortByRank (l : List (String × String)) :
    (sortByRank l).Pairwise (fun a b => keyRank a.1 ≤ keyRank b.1) := by
  induction l with
  | nil => simp [sortByRank]
  | cons x xs ih =>
    rw [sortByRank]
    exact pairwise_insertByRank x _ ih

/-- First-match decomposition for the Method-2 base-directory loop. -/
theorem method2Loop_first (fsys : FSOracle) (database f : String)
    (bases : List String) (q : String)
    (h : method2Loop fsys database f bases = some q) :
    ∃ pre base post, bases = pre ++ base :: post ∧
      (∀ b ∈ pre, fsys.pexists (refPath b database f) = false) ∧
      fsys.pexists (refPath base database f) = true ∧
      q = pjoin (pjoin base "filestore") database := by
  induction bases with
  | nil => simp [method2Loop] at h
  | cons b rest ih =>
    rw [method2Loop] at h
    by_cases he : fsys.pexists (refPath b database f) = true
    · rw [if_pos he] at h
      cases h
      exact ⟨[], b, rest, rfl, by simp, he, rfl⟩
    · rw [if_neg he] at h
      obtain ⟨pre, base, post, heq, hpre, hex, hq⟩ := ih h
      have he' : fsys.pexists (refPath b database f) = false := by
        cases hx : fsys.pexists (refPath b database f)
        · rfl
        · exact absurd hx he
      refine ⟨b :: pre, base, post, by rw [heq]; rfl, ?_, hex, hq⟩
      intro x hx
      rcases List.mem_cons.mp hx with rfl | hx'
      · exact he'
      · exact hpre x hx'

/-- C3: inside the database-configuration lookup the three keys are
considered in rank order (`database.filestore_path` before `data_dir` before
`ir_attachment.location`); a `data_dir` row yields the candidate
`<data_dir>/filestore/<database>`; an `ir_attachment.location` row yields
no path and the loop moves on; when the row loop yields nothing the function
proceeds to the attachment back-reference, which takes one stored-file
reference and tests `<base>/filestore/<database>/<ref[:2]>/<ref>` over the
fixed base list, returning `<base>/filestore/<database>` for the first
match. -/
theorem C3_config_key_order :
    (∀ rows : List (String × String),
      (configQuery rows).Pairwise (fun a b => keyRank a.1 ≤ keyRank b.1)) ∧
    (keyRank "database.filestore_path" < keyRank "data_dir" ∧
      keyRank "data_dir" < keyRank "ir_attachment.location") ∧
    (∀ (fsys : FSOracle) (database v : String)
        (rest : List (String × String)), v ≠ "" →
      method1 fsys database (("data_dir", v) :: rest) =
        if fsys.pexists (pjoin (pjoin v "filestore") database) then
          some (pjoin (pjoin v "filestore") database)
        else method1 fsys database rest) ∧
    (∀ (fsys : FSOracle) (database w : String)
        (rest : List (String × String)),
      method1 fsys database (("ir_attachment.location", w) :: rest) =
        method1 fsys database rest) ∧
    (∀ (fsys : FSOracle) (rows : List (String × String))
        (store_fname : Option String) (database home : String),
      method1 fsys database (configQuery rows) = none →
      get_filestore_from_database fsys false rows store_fname database home =
        method2 fsys database home store_fname) ∧
    (∀ (fsys : FSOracle) (database home f q : String),
      method2 fsys database home (some f) = some q →
      ∃ pre base post, possible_base_dirs home = pre ++ base :: post ∧
        (∀ b ∈ pre, fsys.pexists (refPath b database f) = false) ∧
        fsys.pexists (refPath base database f) = true ∧
        q = pjoin (pjoin base "filestore") database) := by
  refine ⟨?_, by decide, ?_, ?_, ?_, ?_⟩
  · intro rows
    exact pairwise_sortByRank _
  · intro fsys database v rest hv
    rw [method1, if_neg hv,
      if_neg (by decide : ¬("data_dir" : String) = "database.filestore_path"),
      if_pos rfl]
  · intro fsys database w rest
    rw [method1]
    by_cases hw : w = ""
    · rw [if_pos hw]
    · rw [if_neg hw,
        if_neg (by decide :
          ¬("ir_attachment.location" : String) = "database.filestore_path"),
        if_neg (by decide :
          ¬("ir_attachment.location" : String) = "data_dir")]
  · intro fsys rows store_fname database home h
    simp only [get_filestore_from_database, Bool.false_eq_true, if_false]
    rw [h]
  · intro fsys database home f q h
    exact method2Loop_first fsys database f _ q (by simpa [method2] using h)

/-- Witness for `C3_config_key_order`: with only an
`ir_attachment.location = file` row the lookup falls through to the
attachment back-reference. -/
theorem C3_witness :
    get_filestore_from_database
      ⟨fun _ => false, fun _ => false, fun _ => Except.error ()⟩ false
      [("ir_attachment.location", "file")] (some "ab/cd") "db" "/h" =
    method2 ⟨fun _ => false, fun _ => false, fun _ => Except.error ()⟩
      "db" "/h" (some "ab/cd") :=
  C3_config_key_order.2.2.2.2.1
    ⟨fun _ => false, fun _ => false, fun _ => Except.error ()⟩
    [("ir_attachment.location", "file")] (some "ab/cd") "db" "/h" (by decide)

/-! ### Claim C4 -/

/-- C4: `create_full_backup` makes the output directory, produces the outer
archive at `<output_path>/<database>_<timestamp>.zip` (timestamp from
`strftime("%Y%m%d_%H%M%S")`), returns that path, and the archive's entry
names are exactly `<database>.sql` when no filestore archive is present and
exactly `<database>.sql` plus `filestore.zip` when one is. -/
theorem C4_assembler :
    ∀ (db_backup : Payload) (fb : Option Payload)
      (output_path database : String) (t : DateTime),
      (create_full_backup db_backup fb output_path database
          (strftimeTs t)).madeDir = output_path ∧
      (create_full_backup db_backup fb output_path database
          (strftimeTs t)).path =
        output_path ++ "/" ++ database ++ "_" ++ strftimeTs t ++ ".zip" ∧
      (fb = none →
        (create_full_backup db_backup fb output_path database
            (strftimeTs t)).entries.map Prod.fst = [database ++ ".sql"]) ∧
      (∀ pl, fb = some pl →
        (create_full_backup db_backup fb output_path database
            (strftimeTs t)).entries.map Prod.fst =
          [database ++ ".sql", "filestore.zip"]) := by
  intro db_backup fb output_path database t
  refine ⟨rfl, ?_, ?_, ?_⟩
  · simp [create_full_backup, pjoin, String.append_assoc]
  · rintro rfl
    rfl
  · rintro pl rfl
    rfl

/-- Witness for `C4_assembler`: with a filestore archive present the entry
names are the dump and the inner archive. -/
theorem C4_witness :
    (create_full_backup Payload.dump (some (Payload.innerZip [])) "./backups"
        "shop" (strftimeTs ⟨2026, 10, 12, 3, 4, 5⟩)).entries.map Prod.fst =
      ["shop" ++ ".sql", "filestore.zip"] :=
  (C4_assembler Payload.dump (some (Payload.innerZip [])) "./backups" "shop"
    ⟨2026, 10, 12, 3, 4, 5⟩).2.2.2 (Payload.innerZip []) rfl

/-! ### Claim C5 -/

/-- C5: for an existing source directory the filestore archiver's entry set
is exactly the regular files strictly beneath it, each named by its path
relative to the source directory's parent; for a non-existent source it
returns `None` instead of failing. -/
theorem C5_filestore_archiver :
    ∀ (fs : List FSEntry) (p : List String),
      (fsExists fs p = true →
        ∃ l, create_filestore_backup fs p = some l ∧
          ∀ a, a ∈ l ↔ ∃ e, e ∈ fs ∧ e.isFile = true ∧
            isPre p e.path = true ∧ e.path ≠ p ∧
            a = e.path.drop (p.length - 1)) ∧
      (fsExists fs p = false → create_filestore_backup fs p = none) := by
  intro fs p
  constructor
  · intro h
    refine ⟨((rglobAll fs p).filter (fun e => e.isFile)).map
        (fun e => e.path.drop (p.length - 1)),
      by rw [create_filestore_backup, if_pos h], ?_⟩
    intro a
    simp only [List.mem_map, List.mem_filter, rglobAll, Bool.and_eq_true,
      decide_eq_true_eq]
    constructor
    · rintro ⟨e, ⟨⟨hmem, hp, hne⟩, hf⟩, heq⟩
      exact ⟨e, hmem, hf, hp, hne, heq.symm⟩
    · rintro ⟨e, hmem, hf, hp, hne, heq⟩
      exact ⟨e, ⟨⟨hmem, hp, hne⟩, hf⟩, heq.symm⟩
  · intro h
    rw [create_filestore_backup, if_neg (by simp [h])]

/-- Witness for `C5_filestore_archiver`: one directory with one file under
it. -/
theorem C5_witness :
    ∃ l, create_filestore_backup
        [⟨["opt", "fs", "db"], false⟩, ⟨["opt", "fs", "db", "ab", "f1"], true⟩]
        ["opt", "fs", "db"] = some l ∧
      ∀ a, a ∈ l ↔ ∃ e,
        e ∈ [(⟨["opt", "fs", "db"], false⟩ : FSEntry),
          ⟨["opt", "fs", "db", "ab", "f1"], true⟩] ∧ e.isFile = true ∧
        isPre ["opt", "fs", "db"] e.path = true ∧
        e.path ≠ ["opt", "fs", "db"] ∧
        a = e.path.drop (["opt", "fs", "db"].length - 1) :=
  (C5_filestore_archiver
    [⟨["opt", "fs", "db"], false⟩, ⟨["opt", "fs", "db", "ab", "f1"], true⟩]
    ["opt", "fs", "db"]).1 (by decide)

/-! ### Claim C9 -/

/-- The dump entry's name never collides with `filestore.zip`. -/
theorem sql_ne_zip (db : String) : db ++ ".sql" ≠ "filestore.zip" := by
  intro h
  have h' : db.data ++ ".sql".data = "filestore".data ++ ".zip".data := by
    have h1 := congrArg String.data h
    rw [String.data_append] at h1
    rw [h1]
    decide
  have hlen : db.data.length = "filestore".data.length := by
    have h2 := congrArg List.length h'
    rw [List.length_append, List.length_append] at h2
    have e1 : (".sql".data : List Char).length = 4 := by decide
    have e2 : ("filestore".data : List Char).length = 9 := by decide
    have e3 : (".zip".data : List Char).length = 4 := by decide
    rw [e1, e2, e3] at h2
    rw [e2]
    omega
  have : (".sql".data : List Char) = ".zip".data :=
    List.append_inj_right h' hlen
  exact absurd this (by decide)

/-- The two filter passes of the archiver equal the one-pass relative file
set. -/
theorem archiver_entries_eq (fs : List FSEntry) (p : List String) :
    ((rglobAll fs p).filter (fun e => e.isFile)).map
        (fun e => e.path.drop (p.length - 1)) = relativeFiles fs p := by
  rw [relativeFiles, rglobAll, List.filter_filter]
  congr 1
  apply List.filter_congr
  intro e _
  cases e.isFile <;> cases isPre p e.path <;> cases decide (e.path ≠ p) <;> rfl

/-- Looking up the second of two distinctly-named archive entries. -/
theorem lookupEntry_pair (n1 n2 : String) (p1 p2 : Payload) (hne : n1 ≠ n2) :
    lookupEntry [(n1, p1), (n2, p2)] n2 = some p2 := by
  simp [lookupEntry, List.find?, hne]

/-- Extracting `filestore.zip` from an assembled outer archive returns the
inner archive unchanged. -/
theorem extract_full (names : List (List String))
    (output_path database timestamp : String) :
    extractInnerNames (create_full_backup Payload.dump
      (some (Payload.innerZip names)) output_path database timestamp) =
      some names := by
  simp only [extractInnerNames, create_full_backup, List.singleton_append]
  rw [lookupEntry_pair (database ++ ".sql") "filestore.zip" Payload.dump
    (Payload.innerZip names) (sql_ne_zip database)]

/-- C9: extracting the outer archive's `filestore.zip` and then that inner
archive reproduces exactly the original filestore directory's relative file
set — archiving followed by extraction is the identity on the relative
file-path set. -/
theorem C9_round_trip :
    ∀ (fs : List FSEntry) (p : List String)
      (output_path database timestamp : String),
      fsExists fs p = true →
      extractInnerNames
        (backupPipeline fs (some p) output_path database timestamp) =
        some (relativeFiles fs p) := by
  intro fs p out db ts h
  show extractInnerNames
      (create_full_backup Payload.dump
        ((if fsExists fs p then create_filestore_backup fs p else none).map
          Payload.innerZip) out db ts) = some (relativeFiles fs p)
  rw [if_pos h, create_filestore_backup, if_pos h, Option.map_some',
    extract_full, archiver_entries_eq]

/-- Witness for `C9_round_trip`. -/
theorem C9_witness :
    extractInnerNames
      (backupPipeline
        [⟨["d", "shop"], false⟩, ⟨["d", "shop", "aa", "x"], true⟩]
        (some ["d", "shop"]) "./out" "shop" "20261012_030405") =
      some (relativeFiles
        [⟨["d", "shop"], false⟩, ⟨["d", "shop", "aa", "x"], true⟩]
        ["d", "shop"]) :=
  C9_round_trip [⟨["d", "shop"], false⟩, ⟨["d", "shop", "aa", "x"], true⟩]
    ["d", "shop"] "./out" "shop" "20261012_030405" (by decide)

/-! ### Helper lemmas: line splitting and substring search -/

theorem splitLines_ne_nil (s : List Char) : splitLines s ≠ [] := by
  induction s with
  | nil => simp [splitLines]
  | cons c rest ih =>
    rw [splitLines]
    by_cases hc : c = NL
    · simp [hc]
    · rw [if_neg hc]
      cases h : splitLines rest <;> simp

theorem splitLines_append (a b : List Char) :
    splitLines (a ++ NL :: b) = splitLines a ++ splitLines b := by
  induction a with
  | nil =>
    show splitLines (NL :: b) = splitLines [] ++ splitLines b
    simp [splitLines]
  | cons c a' ih =>
    show splitLines (c :: (a' ++ NL :: b)) =
      splitLines (c :: a') ++ splitLines b
    rw [splitLines, splitLines]
    by_cases hc : c = NL
    · rw [if_pos hc, if_pos hc, ih]
      rfl
    · rw [if_neg hc, if_neg hc, ih]
      cases h : splitLines a' with
      | nil => exact absurd h (splitLines_ne_nil a')
      | cons hh tt => simp

theorem splitLines_noNL (l : List Char) (h : NL ∉ l) : splitLines l = [l] := by
  induction l with
  | nil => rfl
  | cons c rest ih =>
    rw [splitLines,
      if_neg (by intro hc; subst hc; exact h (List.mem_cons_self _ _))]
    rw [ih (fun hm => h (List.mem_cons_of_mem c hm))]

theorem mem_splitLines_noNL (s l : List Char)
    (hl : l ∈ splitLines s) : NL ∉ l := by
  induction s generalizing l with
  | nil =>
    simp [splitLines] at hl
    subst hl
    simp
  | cons c rest ih =>
    rw [splitLines] at hl
    by_cases hc : c = NL
    · rw [if_pos hc] at hl
      rcases List.mem_cons.mp hl with rfl | hl'
      · simp
      · exact ih l hl'
    · rw [if_neg hc] at hl
      cases h : splitLines rest with
      | nil => exact absurd h (splitLines_ne_nil rest)
      | cons hh tt =>
        rw [h] at hl
        rcases List.mem_cons.mp hl with rfl | hl'
        · intro hm
          rcases List.mem_cons.mp hm with rfl | hm'
          · exact hc rfl
          · exact ih hh (by rw [h]; exact List.mem_cons_self _ _) hm'
        · exact ih l (by rw [h]; exact List.mem_cons_of_mem _ hl')

theorem isPre_iff {α : Type} [DecidableEq α] (m l : List α) :
    isPre m l = true ↔ ∃ y, l = m ++ y := by
  induction m generalizing l with
  | nil => simp [isPre]
  | cons a as ih =>
    cases l with
    | nil => simp [isPre]
    | cons b bs =>
      rw [isPre]
      simp only [Bool.and_eq_true, decide_eq_true_eq]
      constructor
      · rintro ⟨heq, hp⟩
        subst heq
        obtain ⟨y, hy⟩ := (ih bs).mp hp
        exact ⟨y, by rw [hy]; rfl⟩
      · rintro ⟨y, hy⟩
        simp only [List.cons_append, List.cons.injEq] at hy
        exact ⟨hy.1.symm, (ih bs).mpr ⟨y, hy.2⟩⟩

theorem containsSub_iff (m l : List Char) :
    containsSub m l = true ↔ ∃ x y, l = x ++ m ++ y := by
  induction l with
  | nil =>
    rw [containsSub]
    rw [List.isEmpty_iff]
    constructor
    · rintro rfl
      exact ⟨[], [], rfl⟩
    · rintro ⟨x, y, hxy⟩
      have h := hxy.symm
      rw [List.append_eq_nil] at h
      rw [List.append_eq_nil] at h
      exact h.1.2
  | cons c rest ih =>
    rw [containsSub]
    simp only [Bool.or_eq_true]
    rw [isPre_iff, ih]
    constructor
    · rintro (⟨y, hy⟩ | ⟨x, y, hxy⟩)
      · exact ⟨[], y, by simpa using hy⟩
      · exact ⟨c :: x, y, by rw [hxy]; rfl⟩
    · rintro ⟨x, y, hxy⟩
      cases x with
      | nil =>
        left
        exact ⟨y, by simpa using hxy⟩
      | cons x0 xs =>
        right
        simp only [List.cons_append, List.cons.injEq] at hxy
        exact ⟨xs, y, hxy.2⟩

theorem containsSub_trans (m s t : List Char) (h1 : containsSub m s = true)
    (h2 : containsSub s t = true) : containsSub m t = true := by
  obtain ⟨x2, y2, ht⟩ := (containsSub_iff s t).mp h2
  obtain ⟨x1, y1, hs⟩ := (containsSub_iff m s).mp h1
  refine (containsSub_iff m t).mpr ⟨x2 ++ x1, y1 ++ y2, ?_⟩
  rw [ht, hs]
  simp [List.append_assoc]

theorem splitLines_head_prepend (m y : List Char) (hm : NL ∉ m) :
    ∃ h t, splitLines y = h :: t ∧
      splitLines (m ++ y) = (m ++ h) :: t := by
  induction m with
  | nil =>
    cases h : splitLines y with
    | nil => exact absurd h (splitLines_ne_nil y)
    | cons hh tt => exact ⟨hh, tt, rfl, by simpa using h⟩
  | cons c m' ih =>
    have hc : ¬(c = NL) := fun hcc => by
      subst hcc
      exact hm (List.mem_cons_self _ _)
    obtain ⟨hh, tt, hy, hmy⟩ := ih (fun hx => hm (List.mem_cons_of_mem c hx))
    refine ⟨hh, tt, hy, ?_⟩
    show splitLines (c :: (m' ++ y)) = (c :: (m' ++ hh)) :: tt
    rw [splitLines, if_neg hc, hmy]

theorem containsSub_line (m s : List Char) (h : containsSub m s = true)
    (hm : NL ∉ m) : ∃ l ∈ splitLines s, containsSub m l = true := by
  induction s with
  | nil =>
    rw [containsSub] at h
    have hmnil : m = [] := List.isEmpty_iff.mp h
    subst hmnil
    exact ⟨[], by simp [splitLines], by rw [containsSub]; rfl⟩
  | cons c rest ih =>
    rw [containsSub, Bool.or_eq_true] at h
    rcases h with hpre | hsub
    · obtain ⟨y, hy⟩ := (isPre_iff m (c :: rest)).mp hpre
      obtain ⟨hh, tt, hsy, hmy⟩ := splitLines_head_prepend m y hm
      refine ⟨m ++ hh, ?_, ?_⟩
      · rw [hy, hmy]
        exact List.mem_cons_self _ _
      · exact (containsSub_iff m (m ++ hh)).mpr ⟨[], hh, rfl⟩
    · obtain ⟨l, hl, hcl⟩ := ih hsub
      rw [splitLines]
      by_cases hc : c = NL
      · rw [if_pos hc]
        exact ⟨l, List.mem_cons_of_mem _ hl, hcl⟩
      · rw [if_neg hc]
        cases hsp : splitLines rest with
        | nil => exact absurd hsp (splitLines_ne_nil rest)
        | cons hh tt =>
          rw [hsp] at hl
          rcases List.mem_cons.mp hl with rfl | hl'
          · refine ⟨c :: l, List.mem_cons_self _ _, ?_⟩
            rw [containsSub, hcl]
            simp
          · exact ⟨l, List.mem_cons_of_mem _ hl', hcl⟩

theorem containsSub_dropWhile (c : Char) (m l : List Char)
    (h : containsSub (c :: m) l = true) (hc : isSpaceC c = false) :
    containsSub (c :: m) (l.dropWhile isSpaceC) = true := by
  induction l with
  | nil => simp [containsSub] at h
  | cons b rest ih =>
    rw [containsSub, Bool.or_eq_true] at h
    rcases h with hpre | hsub
    · have hb : c = b := by
        rw [isPre] at hpre
        simp only [Bool.and_eq_true, decide_eq_true_eq] at hpre
        exact hpre.1
      have hcb : isSpaceC b = false := by
        rw [← hb]
        exact hc
      rw [List.dropWhile_cons, if_neg (by simp [hcb])]
      rw [containsSub, hpre]
      simp
    · by_cases hb : isSpaceC b = true
      · rw [List.dropWhile_cons, if_pos hb]
        exact ih hsub
      · have hb' : isSpaceC b = false := by
          cases hx : isSpaceC b
          · rfl
          · exact absurd hx hb
        rw [List.dropWhile_cons, if_neg (by rw [hb']; simp)]
        rw [containsSub, Bool.or_eq_true]
        exact Or.inr hsub

theorem containsSub_reverse (m l : List Char) (h : containsSub m l = true) :
    containsSub m.reverse l.reverse = true := by
  obtain ⟨x, y, rfl⟩ := (containsSub_iff m l).mp h
  refine (containsSub_iff m.reverse ((x ++ m ++ y).reverse)).mpr
    ⟨y.reverse, x.reverse, ?_⟩
  simp [List.reverse_append, List.append_assoc]

/-- The marker survives Python's `strip()`: its first and last characters
are not whitespace. -/
theorem containsMarker_pyStrip (l : List Char)
    (h : containsSub marker l = true) :
    containsSub marker (pyStrip l) = true := by
  have h1 : containsSub marker (l.dropWhile isSpaceC) = true := by
    have e : marker = 'u' :: ['v', 'x', ' ', 'o', 'b', 'x'] := by decide
    rw [e] at h ⊢
    exact containsSub_dropWhile 'u' _ l h (by decide)
  have h2 : containsSub marker.reverse (l.dropWhile isSpaceC).reverse = true :=
    containsSub_reverse _ _ h1
  have h3 : containsSub marker.reverse
      ((l.dropWhile isSpaceC).reverse.dropWhile isSpaceC) = true := by
    have e : marker.reverse = 'x' :: ['b', 'o', ' ', 'x', 'v', 'u'] := by
      decide
    rw [e] at h2 ⊢
    exact containsSub_dropWhile 'x' _ _ h2 (by decide)
  have h4 := containsSub_reverse _ _ h3
  rw [List.reverse_reverse] at h4
  exact h4

theorem mem_of_mem_pyStrip (c : Char) (l : List Char) (h : c ∈ pyStrip l) :
    c ∈ l := by
  rw [pyStrip, List.mem_reverse] at h
  have h2 := List.Sublist.mem h (List.dropWhile_sublist isSpaceC)
  rw [List.mem_reverse] at h2
  exact List.Sublist.mem h2 (List.dropWhile_sublist isSpaceC)

theorem splitLines_joinNL (parts : List (List Char)) (hne : parts ≠ [])
    (hnl : ∀ l ∈ parts, NL ∉ l) :
    splitLines (joinNL parts ++ [NL]) = parts ++ [[]] := by
  induction parts with
  | nil => exact absurd rfl hne
  | cons a rest ih =>
    cases rest with
    | nil =>
      show splitLines (a ++ NL :: []) = [a, []]
      rw [splitLines_append, splitLines_noNL a (hnl a (by simp))]
      rfl
    | cons b rest' =>
      show splitLines ((a ++ NL :: joinNL (b :: rest')) ++ [NL]) =
        (a :: b :: rest') ++ [[]]
      have e : (a ++ NL :: joinNL (b :: rest')) ++ [NL]
          = a ++ NL :: (joinNL (b :: rest') ++ [NL]) := by
        rw [List.append_assoc]
        rfl
      rw [e, splitLines_append, splitLines_noNL a (hnl a (by simp)),
        ih (by simp) (fun l hl => hnl l (List.mem_cons_of_mem a hl))]
      rfl

/-- In the prompt branch (recognizable lines exist) `add_to_crontab` acts by
the chosen action. -/
theorem add_to_crontab_prompt (wOk : Bool) (current cron_line : List Char)
    (action : CronAction) (hobx : obxLines current ≠ []) :
    add_to_crontab wOk current cron_line action =
      match action with
      | .cancel => (none, false)
      | .replace => (some (joinNL ((splitLines current).filter
          (fun l => !isObxLine l) ++ [pyStrip cron_line]) ++ [NL]), wOk)
      | .add => (some (current ++ cron_line ++ [NL]), wOk) := by
  rw [add_to_crontab.eq_def,
    if_neg (by rw [List.isEmpty_iff]; exact hobx)]

/-! ### Claim C6 -/

/-- C6: for a newline-terminated schedule table with at least one
recognizable line, and a newly composed line that is recognizable, free of
newlines, and already stripped: "replace" writes a table with exactly one
recognizable line, equal to the new line; "add" writes the old text with the
new line appended, so the line list gains exactly the new line and the
recognizable lines gain exactly one; "cancel" writes nothing and reports
failure. -/
theorem C6_schedule_installer :
    ∀ (wOk : Bool) (current cron_line : List Char),
      obxLines current ≠ [] →
      isObxLine cron_line = true →
      NL ∉ cron_line →
      pyStrip cron_line = cron_line →
      (∃ c0, current = c0 ++ [NL]) →
      ((∃ t, (add_to_crontab wOk current cron_line CronAction.replace).1 =
          some t ∧ obxLines t = [cron_line]) ∧
       (∃ K, splitLines current = K ++ [[]] ∧
         (add_to_crontab wOk current cron_line CronAction.add).1 =
           some (current ++ cron_line ++ [NL]) ∧
         splitLines (current ++ cron_line ++ [NL]) = K ++ [cron_line, []] ∧
         obxLines (current ++ cron_line ++ [NL]) =
           obxLines current ++ [cron_line]) ∧
       add_to_crontab wOk current cron_line CronAction.cancel =
         (none, false)) := by
  intro wOk current cron hobx hm hnl hstrip hend
  obtain ⟨c0, rfl⟩ := hend
  have hs1 : splitLines (c0 ++ [NL]) = splitLines c0 ++ [[]] := by
    have e : c0 ++ [NL] = c0 ++ NL :: [] := rfl
    rw [e, splitLines_append]
    rfl
  have hs2 : splitLines ((c0 ++ [NL]) ++ cron ++ [NL]) =
      splitLines c0 ++ [cron, []] := by
    have e : ((c0 ++ [NL]) ++ cron) ++ [NL] = c0 ++ NL :: (cron ++ [NL]) := by
      simp
    rw [e, splitLines_append]
    have e2 : cron ++ [NL] = cron ++ NL :: [] := rfl
    rw [e2, splitLines_append, splitLines_noNL cron hnl]
    rfl
  have hobx0 : isObxLine ([] : List Char) = false := by decide
  refine ⟨?_, ?_, ?_⟩
  · rw [add_to_crontab_prompt wOk _ cron .replace hobx]
    refine ⟨_, rfl, ?_⟩
    rw [hstrip]
    rw [obxLines, splitLines_joinNL _ (by simp) ?_]
    · rw [List.filter_append, List.filter_append, List.filter_filter]
      simp [hm, hobx0, Bool.and_not_self]
    · intro l hl
      rcases List.mem_append.mp hl with hF | hc
      · exact mem_splitLines_noNL _ l (List.mem_filter.mp hF).1
      · rw [List.mem_singleton] at hc
        subst hc
        exact hnl
  · refine ⟨splitLines c0, hs1, ?_, hs2, ?_⟩
    · rw [add_to_crontab_prompt wOk _ cron .add hobx]
    · rw [obxLines, obxLines, hs2, hs1]
      rw [List.filter_append, List.filter_append]
      simp [hm, hobx0]
  · rw [add_to_crontab_prompt wOk _ cron .cancel hobx]

/-- Witness for `C6_schedule_installer`: cancel on a table with one
recognizable line. -/
theorem C6_witness :
    add_to_crontab true ("0 1 * * * uvx obx old".toList ++ [NL])
      "0 2 * * * uvx obx -d x".toList CronAction.cancel = (none, false) :=
  (C6_schedule_installer true ("0 1 * * * uvx obx old".toList ++ [NL])
    "0 2 * * * uvx obx -d x".toList (by decide) (by decide) (by decide)
    (by decide) ⟨"0 1 * * * uvx obx old".toList, rfl⟩).2.2

/-! ### Claim C10 -/

/-- C10: every composed cron line carries the recognition marker, so the
already-satisfied branch of `add_to_crontab` is unreachable: whenever the
stripped composed line occurs verbatim in the crontab text, the crontab has
a recognizable line and the installer takes the prompt path (in particular
the cancel choice is honored, which the already-satisfied branch would
never consult). -/
theorem C10_already_satisfied_unreachable :
    ∀ (wOk : Bool) (current schedule args : List Char),
      containsSub (pyStrip (composedCronLine schedule args)) current = true →
      obxLines current ≠ [] ∧
      add_to_crontab wOk current (composedCronLine schedule args)
        CronAction.cancel = (none, false) := by
  intro wOk current schedule args hin
  have hmline : containsSub marker (composedCronLine schedule args) = true := by
    refine (containsSub_iff _ _).mpr ⟨schedule ++ [' '], ' ' :: args, ?_⟩
    rw [composedCronLine]
    simp [List.append_assoc]
  have hmstrip := containsMarker_pyStrip _ hmline
  have hmcur : containsSub marker current = true :=
    containsSub_trans _ _ _ hmstrip hin
  obtain ⟨l, hl, hml⟩ := containsSub_line marker current hmcur (by decide)
  have hobx : obxLines current ≠ [] := by
    intro hnil
    have hmem : l ∈ (splitLines current).filter isObxLine :=
      List.mem_filter.mpr ⟨hl, hml⟩
    rw [show (splitLines current).filter isObxLine = obxLines current from rfl,
      hnil] at hmem
    exact absurd hmem (List.not_mem_nil l)
  exact ⟨hobx, by rw [add_to_crontab_prompt wOk current _ .cancel hobx]⟩

/-- Witness for `C10_already_satisfied_unreachable`. -/
theorem C10_witness :
    obxLines ("* uvx obx -d x".toList ++ [NL]) ≠ [] ∧
    add_to_crontab true ("* uvx obx -d x".toList ++ [NL])
      (composedCronLine "*".toList "-d x".toList) CronAction.cancel =
      (none, false) :=
  C10_already_satisfied_unreachable true ("* uvx obx -d x".toList ++ [NL])
    "*".toList "-d x".toList (by decide)

/-! ### Claim C7 -/

/-- C7: the run exits 0 on a successful backup and on a user-cancelled
backup, and exits 1 exactly on the fatal errors: PostgreSQL connection
failure, no databases found, a missing database name in non-interactive
mode, and dump failure (`pg_dump` missing or exiting non-zero). -/
theorem C7_exit_codes :
    ∀ (ni : Bool) (dbArg : Option String) (env : RunEnv),
      (mainExit ni dbArg env = 0 ∨ mainExit ni dbArg env = 1) ∧
      (mainExit ni dbArg env = 1 ↔
        (dbArg = none ∧ (env.connResult = Except.error () ∨
          env.connResult = Except.ok [])) ∨
        (dbArg = none ∧ ni = true ∧
          ∃ d ds, env.connResult = Except.ok (d :: ds)) ∨
        ((dbArg ≠ none ∨
            (ni = false ∧ ∃ d ds, env.connResult = Except.ok (d :: ds))) ∧
          (ni = true ∨ env.userConfirms = true) ∧
          create_db_backup env.dump = false)) ∧
      ((ni = false ∧ env.userConfirms = false ∧
          (dbArg ≠ none ∨ ∃ d ds, env.connResult = Except.ok (d :: ds))) →
        mainExit ni dbArg env = 0) := by
  intro ni dbArg env
  cases dbArg with
  | some db =>
    cases ni <;> cases hc : env.userConfirms <;>
      cases hd : create_db_backup env.dump <;>
      simp [mainExit, mainAfterDb, hc, hd]
  | none =>
    cases hcr : env.connResult with
    | error e =>
      cases e
      simp [mainExit, hcr]
    | ok dbs =>
      cases dbs with
      | nil => simp [mainExit, hcr]
      | cons d ds =>
        cases ni <;> cases hc : env.userConfirms <;>
          cases hd : create_db_backup env.dump <;>
          simp [mainExit, mainAfterDb, hcr, hc, hd]

/-- Witness for `C7_exit_codes`: a cancelled interactive backup exits 0. -/
theorem C7_witness :
    mainExit false (some "shop")
      ⟨Except.ok ["shop"], false, DumpOutcome.ran 0⟩ = 0 :=
  (C7_exit_codes false (some "shop")
    ⟨Except.ok ["shop"], false, DumpOutcome.ran 0⟩).2.2
    ⟨rfl, rfl, Or.inl (by simp)⟩

end OdooBackup
